import Mathlib

/-!
Shallow embedding of the resilient API-access layer of the
solana-memecoin-monitor repository: the rate-limited request queue
(src/src/RequestQueue.js, class RequestQueue), the batch aggregator
(same file, class BatchManager), the endpoint registry
(src/unnamed/part_003, class RPCManager) and the TTL/LRU cache
(src/unnamed/part_001, class CacheManager).

Conventions of the embedding:
- JavaScript timestamps (Date.now()) are modelled as Int milliseconds.
- A JavaScript Map with string keys is modelled as an association list
  List (Nat x alpha) over abstract key identifiers, with Map.get / Map.set /
  Map.delete translated to JSMap.find? / JSMap.mapSet / JSMap.mapDelete,
  preserving insertion order exactly as a JS Map does.
- Opaque values (caller-supplied functions, promise continuations, result
  payloads, error objects where only identity matters) are modelled as Nat
  identifiers; error objects whose message is inspected are modelled by
  that message String.
- Event-loop interleaving is modelled by transition systems whose atomic
  steps are the synchronous segments of the source (code between awaits),
  with guards copied from the source conditions.
-/

namespace JSMap

/-- Lookup in a JS Map modelled as an association list: Map.get. -/
def find? {α : Type} : List (Nat × α) → Nat → Option α
  | [], _ => none
  | p :: rest, k => if p.1 = k then some p.2 else find? rest k

/-- JS Map.set: replaces the value in place when the key is present,
otherwise appends the new pair (JS Maps preserve insertion order). -/
def mapSet {α : Type} : List (Nat × α) → Nat → α → List (Nat × α)
  | [], k, v => [(k, v)]
  | p :: rest, k, v => if p.1 = k then (k, v) :: rest else p :: mapSet rest k v

/-- JS Map.delete: removes the entry with the given key. -/
def mapDelete {α : Type} : List (Nat × α) → Nat → List (Nat × α)
  | [], _ => []
  | p :: rest, k => if p.1 = k then mapDelete rest k else p :: mapDelete rest k

end JSMap

namespace RequestQueue

/-!
Embedding of class RequestQueue (src/src/RequestQueue.js).
this.requestTimes is a list of Int timestamps; this.maxRequestsPerSecond
is the parameter R of the claims.
-/

/-- RequestQueue.canMakeRequest (lines 202-210): counts recorded start
times in the trailing one-second window and admits a request only when
the count is below maxRequestsPerSecond. -/
def canMakeRequest (maxRequestsPerSecond : Nat) (requestTimes : List Int)
    (now : Int) : Bool :=
  let oneSecondAgo := now - 1000
  let recentRequests :=
    (requestTimes.filter (fun time => decide (oneSecondAgo < time))).length
  recentRequests < maxRequestsPerSecond

/-- RequestQueue.recordRequestTime (lines 232-234): pushes the current
time onto requestTimes. -/
def recordRequestTime (requestTimes : List Int) (now : Int) : List Int :=
  requestTimes ++ [now]

/-- RequestQueue.cleanupOldTimes (lines 239-242): drops recorded times
older than five seconds. -/
def cleanupOldTimes (requestTimes : List Int) (now : Int) : List Int :=
  let fiveSecondsAgo := now - 5000
  requestTimes.filter (fun time => decide (fiveSecondsAgo < time))

/-- State of the rate limiter: the stored (pruned) requestTimes list, the
ghost history of every start ever recorded, and the current clock. -/
structure RateState where
  requestTimes : List Int
  history : List Int
  now : Int

/-- Event-loop executions of the rate limiter. A start step is the
synchronous segment of processQueue (lines 80-88) together with the
synchronous head of executeRequest (lines 101-103): it is guarded by
canMakeRequest and records its timestamp. A cleanup step is the periodic
cleanupOldTimes timer (line 30). A tick step merely advances the clock.
Timestamps are monotone along an execution. -/
inductive RateReachable (R : Nat) : RateState → Prop
  | init (t0 : Int) : RateReachable R ⟨[], [], t0⟩
  | start (s : RateState) (t : Int) (hmono : s.now ≤ t)
      (hadm : canMakeRequest R s.requestTimes t = true)
      (hprev : RateReachable R s) :
      RateReachable R ⟨recordRequestTime s.requestTimes t, s.history ++ [t], t⟩
  | cleanup (s : RateState) (t : Int) (hmono : s.now ≤ t)
      (hprev : RateReachable R s) :
      RateReachable R ⟨cleanupOldTimes s.requestTimes t, s.history, t⟩
  | tick (s : RateState) (t : Int) (hmono : s.now ≤ t)
      (hprev : RateReachable R s) :
      RateReachable R ⟨s.requestTimes, s.history, t⟩

/-- Number of recorded starts falling in the sliding one-second window
(w, w + 1000]. -/
def countWindow (times : List Int) (w : Int) : Nat :=
  (times.filter (fun t => decide (w < t ∧ t ≤ w + 1000))).length

/-- A start history is admissible when every start was admitted against
the starts recorded before it: fewer than R of them lie in its trailing
one-second window. -/
inductive Admissible (R : Nat) : List Int → Prop
  | nil : Admissible R []
  | snoc (hist : List Int) (t : Int) (hprev : Admissible R hist)
      (hcount : (hist.filter (fun x => decide (t - 1000 < x))).length < R) :
      Admissible R (hist ++ [t])

/-- Invariant connecting the pruned requestTimes list to the full start
history: every recorded start is in the past, and the stored list is the
history minus some starts that are at least five seconds old, so pruning
never loses a start that is still inside any trailing one-second window. -/
def StoredFaithful (s : RateState) : Prop :=
  (∀ t ∈ s.history, t ≤ s.now) ∧
  ∃ removed : List Int, s.history.Perm (s.requestTimes ++ removed) ∧
    ∀ x ∈ removed, x ≤ s.now - 5000

/-!
Embedding of the concurrency cap of RequestQueue. The dispatch step is
the loop body of processQueue (lines 80-88) guarded by the loop condition
activeRequests < maxConcurrent; executeRequest increments activeRequests
synchronously on entry (line 102) and decrements it in the finally block
(line 121).
-/

/-- Abstract executor state for the concurrency claim: the queue length
and the number of in-flight operations. -/
structure ExecState where
  queueLength : Nat
  activeRequests : Nat
  deriving DecidableEq

/-- Atomic event-loop steps of the executor. enqueue appends a request
(line 58 or priority insert), dispatch is one iteration of the
processQueue loop that shifts a request and enters executeRequest
(guarded by the loop condition activeRequests < maxConcurrent), retry
re-queues a failed request (line 146), finish is the finally block of
executeRequest resolving an in-flight operation. -/
inductive ExecStep (maxConcurrent : Nat) : ExecState → ExecState → Prop
  | enqueue (q a : Nat) : ExecStep maxConcurrent ⟨q, a⟩ ⟨q + 1, a⟩
  | dispatch (q a : Nat) (hq : 0 < q) (hc : a < maxConcurrent) :
      ExecStep maxConcurrent ⟨q, a⟩ ⟨q - 1, a + 1⟩
  | retry (q a : Nat) : ExecStep maxConcurrent ⟨q, a⟩ ⟨q + 1, a⟩
  | finish (q a : Nat) (ha : 0 < a) : ExecStep maxConcurrent ⟨q, a⟩ ⟨q, a - 1⟩

/-- States reachable from the initial empty executor state. -/
def ExecReachable (maxConcurrent : Nat) (s : ExecState) : Prop :=
  Relation.ReflTransGen (ExecStep maxConcurrent) ⟨0, 0⟩ s

/-!
Embedding of the error classification and retry logic of RequestQueue
(lines 128-197). Error objects are modelled by their message string; the
JS substring test message.includes(pat) is containsSubstring message pat.
-/

/-- Whether the pattern list occurs at the start of the list. -/
def startsWithList : List Char → List Char → Bool
  | [], _ => true
  | _ :: _, [] => false
  | a :: pat, b :: s => a == b && startsWithList pat s

/-- Whether the pattern occurs somewhere in the list. -/
def containsSubList (s pat : List Char) : Bool :=
  if startsWithList pat s then true
  else
    match s with
    | [] => false
    | _ :: rest => containsSubList rest pat

/-- JS String.prototype.includes: message.includes(pat). -/
def containsSubstring (message pat : String) : Bool :=
  containsSubList message.toList pat.toList

/-- RequestQueue.isRateLimitError (lines 161-169). -/
def isRateLimitError (message : String) : Bool :=
  containsSubstring message "429" ||
  containsSubstring message "Too Many Requests" ||
  containsSubstring message "rate limit" ||
  containsSubstring message "Rate limit"

/-- RequestQueue.isRetriableError (lines 174-184). -/
def isRetriableError (message : String) : Bool :=
  containsSubstring message "timeout" ||
  containsSubstring message "ECONNRESET" ||
  containsSubstring message "ETIMEDOUT" ||
  containsSubstring message "503" ||
  containsSubstring message "502" ||
  containsSubstring message "network"

/-- Outcome of one attempt of the caller-supplied request function:
either it resolves with a value or it throws an error with a message. -/
inductive AttemptOutcome where
  | success (value : Nat)
  | failure (message : String)
  deriving DecidableEq

/-- Terminal resolution of the future handed back by enqueue. -/
inductive RequestResult where
  | resolved (value : Nat)
  | rejected (message : String)
  deriving DecidableEq

/-- The retry loop of executeRequest / handleRequestError (lines 101-156)
for a single request: attempt number attempts has outcome
outcomes attempts; on failure the attempt counter is incremented
(line 129) and the request is retried exactly when
attempts < retryAttempts and the error is a rate-limit or retriable
error (lines 138-139); otherwise the future rejects with that error
(line 154). On success the future resolves with the value (line 116). -/
def runAttempts (retryAttempts : Nat) (outcomes : Nat → AttemptOutcome)
    (attempts : Nat) : RequestResult :=
  match outcomes attempts with
  | .success v => .resolved v
  | .failure error =>
    if h : attempts + 1 < retryAttempts ∧
        (isRateLimitError error || isRetriableError error) = true then
      runAttempts retryAttempts outcomes (attempts + 1)
    else
      .rejected error
termination_by retryAttempts - attempts
decreasing_by
  obtain ⟨h1, _⟩ := h
  omega

/-- A request submitted through enqueue starts with attempts = 0
(line 43). -/
def submitWithRetries (retryAttempts : Nat)
    (outcomes : Nat → AttemptOutcome) : RequestResult :=
  runAttempts retryAttempts outcomes 0

/-!
Embedding of the queue ordering of RequestQueue: priority insertion in
enqueue (lines 47-59) and front re-queueing of retried requests in
handleRequestError (line 146). Requests are reduced to their priority
and an identifier standing for the opaque payload.
-/

/-- A queued request: its priority and an identifier for its payload. -/
structure QRequest where
  priority : Int
  id : Nat
  deriving DecidableEq

/-- The priority insertion of enqueue (lines 47-59): the request is
spliced in before the first queued request of strictly smaller priority,
and pushed to the back when there is none. -/
def enqueueInsert (request : QRequest) : List QRequest → List QRequest
  | [] => [request]
  | q :: rest =>
    if q.priority < request.priority then request :: q :: rest
    else q :: enqueueInsert request rest

/-- handleRequestError re-queues a retried request at the front of the
queue (line 146: this.queue.unshift(request)). -/
def requeueRetryFront (request : QRequest) (queue : List QRequest) :
    List QRequest :=
  request :: queue

/-- Spec-side predicate: the queue is ordered by non-increasing priority,
so that servicing from the front always takes a highest-priority request. -/
def PriorityOrdered : List QRequest → Prop
  | [] => True
  | [_] => True
  | a :: b :: rest => b.priority ≤ a.priority ∧ PriorityOrdered (b :: rest)

instance instDecPriorityOrdered :
    (queue : List QRequest) → Decidable (PriorityOrdered queue)
  | [] => isTrue trivial
  | [_] => isTrue trivial
  | _ :: b :: rest =>
    have : Decidable (PriorityOrdered (b :: rest)) :=
      instDecPriorityOrdered (b :: rest)
    inferInstanceAs (Decidable (_ ∧ _))

end RequestQueue

namespace RPCManager

/-!
Embedding of class RPCManager (src/unnamed/part_003). Endpoint names are
Nat identifiers; the priority field keeps the source convention where a
smaller number means a higher-priority (preferred) endpoint, as in the
loaded list: Helius priority 1, dRPC priority 2, Solana Foundation
priority 3, tried in list order.
-/

/-- One upstream endpoint: its name identifier and its priority rank,
where rank 1 is the most preferred. Connection URLs and maxRPS hints are
irrelevant to the selection logic and omitted. -/
structure Endpoint where
  name : Nat
  priority : Nat
  deriving DecidableEq

/-- Mutable state of the RPCManager: the rotation index, the static
endpoint list, and the per-endpoint failure book-keeping maps. -/
structure RPCState where
  currentEndpointIndex : Nat
  endpoints : List Endpoint
  failureCounts : List (Nat × Nat)
  lastFailureTime : List (Nat × Int)
  deriving DecidableEq

/-- this.maxFailures = 5 (line 13). -/
def maxFailures : Nat := 5

/-- this.cooldownPeriod = 60000 (line 14). -/
def cooldownPeriod : Int := 60000

/-- RPCManager.getCurrentEndpoint (lines 87-89): index into the endpoint
array. -/
def getCurrentEndpoint (s : RPCState) : Option Endpoint :=
  s.endpoints[s.currentEndpointIndex]?

/-- RPCManager.isEndpointInCooldown (lines 180-190): an endpoint is in
cooldown when its failure count reached maxFailures and less than
cooldownPeriod elapsed since its last failure. Map.get with no entry
yields the JS defaults 0 used by the source. -/
def isEndpointInCooldown (s : RPCState) (endpointName : Nat) (now : Int) :
    Bool :=
  let failureCount := (JSMap.find? s.failureCounts endpointName).getD 0
  let lastFailure := (JSMap.find? s.lastFailureTime endpointName).getD 0
  if maxFailures ≤ failureCount then decide (now - lastFailure < cooldownPeriod)
  else false

/-- The while loop of switchToNextEndpoint (lines 158-178): advance the
index cyclically; an endpoint in cooldown consumes one attempt and the
loop continues; the first endpoint not in cooldown is selected and the
loop reports a rotation. After as many attempts as there are endpoints
the loop gives up, reporting no rotation. The fuel argument is the
remaining attempt budget; the none branch of the index lookup is
unreachable for a nonempty endpoint list. -/
def switchLoop (s : RPCState) (now : Int) : Nat → Nat → Nat × Bool
  | 0, i => (i, false)
  | fuel + 1, i =>
    let nextIndex := (i + 1) % s.endpoints.length
    match s.endpoints[nextIndex]? with
    | some nextEndpoint =>
      if isEndpointInCooldown s nextEndpoint.name now then
        switchLoop s now fuel nextIndex
      else
        (nextIndex, true)
    | none => (nextIndex, true)

/-- RPCManager.switchToNextEndpoint (lines 158-178): runs the rotation
loop with an attempt budget equal to the number of endpoints and commits
the resulting index; the Bool reports whether a rotation to an endpoint
outside cooldown occurred. -/
def switchToNextEndpoint (s : RPCState) (now : Int) : RPCState × Bool :=
  let r := switchLoop s now s.endpoints.length s.currentEndpointIndex
  ({ s with currentEndpointIndex := r.1 }, r.2)

/-- RPCManager.resetFailureCount (lines 192-195). -/
def resetFailureCount (s : RPCState) (endpointName : Nat) : RPCState :=
  { s with
    failureCounts := JSMap.mapSet s.failureCounts endpointName 0,
    lastFailureTime := JSMap.mapDelete s.lastFailureTime endpointName }

/-- RPCManager.handleEndpointFailure (lines 145-156): bump the failure
count, stamp the failure time, and rotate when the new count reached
maxFailures. -/
def handleEndpointFailure (s : RPCState) (endpointName : Nat) (now : Int) :
    RPCState :=
  let currentCount := (JSMap.find? s.failureCounts endpointName).getD 0
  let s' := { s with
    failureCounts := JSMap.mapSet s.failureCounts endpointName (currentCount + 1),
    lastFailureTime := JSMap.mapSet s.lastFailureTime endpointName now }
  if maxFailures ≤ currentCount + 1 then (switchToNextEndpoint s' now).1 else s'

/-- Externally triggered events: the call sites (createConnection,
createWebSocket, lines 91-143) report a failure or a success of the
current endpoint, passing getCurrentEndpoint().name. -/
inductive RPCEvent where
  | failCurrent (now : Int)
  | succeedCurrent (now : Int)

/-- Apply one reported event to the manager state. -/
def applyEvent (s : RPCState) : RPCEvent → RPCState
  | .failCurrent now =>
    match getCurrentEndpoint s with
    | some e => handleEndpointFailure s e.name now
    | none => s
  | .succeedCurrent _ =>
    match getCurrentEndpoint s with
    | some e => resetFailureCount s e.name
    | none => s

/-- Run a sequence of reported events. -/
def runEvents (s : RPCState) (events : List RPCEvent) : RPCState :=
  events.foldl applyEvent s

/-- The constructor state (lines 8-15): index 0, empty failure maps. -/
def initialState (endpoints : List Endpoint) : RPCState :=
  ⟨0, endpoints, [], []⟩

end RPCManager

namespace BatchManager

/-!
Embedding of class BatchManager (src/src/RequestQueue.js, second module).
Batch kinds (batchType), member keys, batch-function identities and
promise continuations are Nat identifiers. The deadline timer handle is
not part of the data model here; the settlement of a flush is modelled
as a pure function of the promises snapshot and the outcome of the batch
function.
-/

/-- The per-kind options resolved in addToBatch (lines 372-376). -/
structure BatchOpts where
  maxSize : Nat
  maxWait : Nat
  minSize : Nat
  deriving DecidableEq

/-- One member item of a batch (lines 383-386): its key and the time it
was added. -/
structure BatchItem where
  key : Nat
  addedAt : Int
  deriving DecidableEq

/-- One open batch group (lines 367-377): the member items, the map from
member key to its waiting continuation, the identity of the batch
function captured at creation, and the resolved options. -/
structure Batch where
  items : List (Nat × BatchItem)
  promises : List (Nat × Nat)
  batchFunction : Nat
  opts : BatchOpts
  deriving DecidableEq

/-- The member-adding part of addToBatch for an existing group
(lines 380-388): batch.items.set(key, ...) and
batch.promises.set(key, resolve/reject). A JS Map.set with an existing
key replaces the stored value. -/
def addOneToBatch (batch : Batch) (key promiseId : Nat) (now : Int) :
    Batch :=
  { batch with
    items := JSMap.mapSet batch.items key ⟨key, now⟩,
    promises := JSMap.mapSet batch.promises key promiseId }

/-- BatchManager.addToBatch (lines 361-401), state effect: when the kind
has no entry in this.batches, an entry is created carrying the
batchFunction and options of this call (lines 366-378); then the item
and its continuation are inserted into the kind's batch. For a kind that
already has an entry the batchFunctionId and opts arguments are unused.
Flush triggering (timer and size checks, lines 391-400) is modelled
separately by settleBatch. -/
def addToBatch (batches : List (Nat × Batch)) (batchType key : Nat)
    (batchFunctionId : Nat) (opts : BatchOpts) (promiseId : Nat)
    (now : Int) : List (Nat × Batch) :=
  let batches' :=
    if (JSMap.find? batches batchType).isSome then batches
    else JSMap.mapSet batches batchType ⟨[], [], batchFunctionId, opts⟩
  match JSMap.find? batches' batchType with
  | some batch =>
    JSMap.mapSet batches' batchType (addOneToBatch batch key promiseId now)
  | none => batches'

/-- The batch-clearing part of processBatch (lines 424-431): the items
and promises of the kind's group are snapshotted and cleared, but the
kind's entry in this.batches, with its batchFunction and options, stays. -/
def flushClear (batches : List (Nat × Batch)) (batchType : Nat) :
    List (Nat × Batch) :=
  match JSMap.find? batches batchType with
  | some batch =>
    JSMap.mapSet batches batchType { batch with items := [], promises := [] }
  | none => batches

/-- Outcome of awaiting the batch function on a flush (line 448): either
a result map from keys to values, or a thrown error. A key maps to some
value exactly when results[key] is not undefined in the source. -/
inductive BatchOutcome where
  | ok (results : List (Nat × Nat))
  | err (error : Nat)

/-- How each waiting continuation is settled at a flush. -/
inductive BatchSettlement where
  | resolved (value : Nat)
  | rejectedMissing (key : Nat)
  | rejectedError (error : Nat)
  deriving DecidableEq

/-- The settlement part of processBatch (lines 445-471): on a result
map, every continuation in the promises snapshot is resolved with the
value stored under its key, or rejected with a missing-result error when
the map has no value for the key; when the batch function throws, every
continuation is rejected with that error. Listed as pairs of the
continuation identity and its settlement. -/
def settleBatch (promises : List (Nat × Nat)) (outcome : BatchOutcome) :
    List (Nat × BatchSettlement) :=
  match outcome with
  | .ok results =>
    promises.map (fun p =>
      match JSMap.find? results p.1 with
      | some v => (p.2, BatchSettlement.resolved v)
      | none => (p.2, BatchSettlement.rejectedMissing p.1))
  | .err e => promises.map (fun p => (p.2, BatchSettlement.rejectedError e))

end BatchManager

namespace CacheManager

/-!
Embedding of class CacheManager (src/unnamed/part_001). One namespace
(cache type) is modelled; keys are Nat identifiers and stored data
values are Nat.
-/

/-- One cache entry (lines 107-112). -/
structure CacheEntry where
  data : Nat
  createdAt : Int
  expiresAt : Int
  lastAccessed : Int
  deriving DecidableEq

/-- CacheManager.get (lines 63-88) on one namespace: a missing key
reports absent; an entry with Date.now() > expiresAt is deleted and
reported absent; otherwise the entry's last-access time is refreshed and
its data returned. Returns the read result and the updated namespace
map. -/
def cacheGet (cache : List (Nat × CacheEntry)) (key : Nat) (now : Int) :
    Option Nat × List (Nat × CacheEntry) :=
  match JSMap.find? cache key with
  | none => (none, cache)
  | some entry =>
    if decide (entry.expiresAt < now) then (none, JSMap.mapDelete cache key)
    else (some entry.data,
      JSMap.mapSet cache key { entry with lastAccessed := now })

/-- The fold of evictOldest (lines 166-174): scan the entries tracking
the key with the strictly smallest last-access time seen so far,
starting from no candidate (oldestTime = Infinity in the source). -/
def oldestKeyAux : List (Nat × CacheEntry) → Option (Nat × Int) → Option Nat
  | [], acc => acc.map Prod.fst
  | (k, e) :: rest, none => oldestKeyAux rest (some (k, e.lastAccessed))
  | (k, e) :: rest, some (k0, t0) =>
    if e.lastAccessed < t0 then oldestKeyAux rest (some (k, e.lastAccessed))
    else oldestKeyAux rest (some (k0, t0))

/-- The key selected for eviction by evictOldest. -/
def oldestKey (cache : List (Nat × CacheEntry)) : Option Nat :=
  oldestKeyAux cache none

/-- CacheManager.evictOldest (lines 162-180): delete the entry with the
oldest last-access time; an empty namespace is left unchanged. -/
def evictOldest (cache : List (Nat × CacheEntry)) :
    List (Nat × CacheEntry) :=
  match oldestKey cache with
  | some k => JSMap.mapDelete cache k
  | none => cache

/-- CacheManager.set (lines 93-118) on one namespace with capacity
limit: when the namespace already holds at least limit entries, evict
the least-recently-accessed one; then insert or overwrite the entry with
expiry now + ttl and fresh access time. -/
def cacheSet (cache : List (Nat × CacheEntry)) (key data : Nat)
    (ttl : Int) (limit : Nat) (now : Int) : List (Nat × CacheEntry) :=
  let cache' := if limit ≤ cache.length then evictOldest cache else cache
  JSMap.mapSet cache' key ⟨data, now, now + ttl, now⟩

/-- A sequence of set operations (key, data, ttl, now) applied to an
initially empty namespace. -/
def applySets (ops : List (Nat × Nat × Int × Int)) (limit : Nat) :
    List (Nat × CacheEntry) :=
  ops.foldl (fun cache op => cacheSet cache op.1 op.2.1 op.2.2.1 limit op.2.2.2) []

end CacheManager

/-!
Theorems. Helper lemmas about the JS Map embedding come first, then the
claims C1 to C10 in order of their components.
-/

namespace JSMap

theorem find?_mapSet_self {α : Type} (m : List (Nat × α)) (k : Nat) (v : α) :
    find? (mapSet m k v) k = some v := by
  induction m with
  | nil => simp [mapSet, find?]
  | cons p rest ih =>
    by_cases h : p.1 = k
    · simp [mapSet, find?, h]
    · simp [mapSet, find?, h, ih]

theorem find?_mapSet_ne {α : Type} (m : List (Nat × α)) (k k' : Nat) (v : α)
    (h : k' ≠ k) : find? (mapSet m k v) k' = find? m k' := by
  induction m with
  | nil => simp [mapSet, find?, Ne.symm h]
  | cons p rest ih =>
    by_cases hp : p.1 = k
    · simp [mapSet, find?, hp, Ne.symm h]
    · by_cases hp' : p.1 = k'
      · simp [mapSet, find?, hp, hp', h]
      · simp [mapSet, find?, hp, hp', ih]

theorem length_mapSet_le {α : Type} (m : List (Nat × α)) (k : Nat) (v : α) :
    (mapSet m k v).length ≤ m.length + 1 := by
  induction m with
  | nil => simp [mapSet]
  | cons p rest ih =>
    by_cases h : p.1 = k
    · simp [mapSet, h]
    · simp only [mapSet, if_neg h, List.length_cons]
      omega

theorem length_mapDelete_le {α : Type} (m : List (Nat × α)) (k : Nat) :
    (mapDelete m k).length ≤ m.length := by
  induction m with
  | nil => simp [mapDelete]
  | cons p rest ih =>
    by_cases h : p.1 = k
    · simp only [mapDelete, if_pos h, List.length_cons]
      omega
    · simp only [mapDelete, if_neg h, List.length_cons]
      omega

theorem length_mapDelete_lt {α : Type} (m : List (Nat × α)) (k : Nat) (v : α)
    (hmem : (k, v) ∈ m) : (mapDelete m k).length < m.length := by
  induction m with
  | nil => cases hmem
  | cons p rest ih =>
    by_cases h : p.1 = k
    · have := length_mapDelete_le rest k
      simp only [mapDelete, if_pos h, List.length_cons]
      omega
    · rcases List.mem_cons.mp hmem with heq | hmem'
      · exact absurd (congrArg Prod.fst heq).symm h
      · simp only [mapDelete, if_neg h, List.length_cons]
        exact Nat.succ_lt_succ (ih hmem')

end JSMap

namespace RequestQueue

/-- C2: in every reachable executor state the number of in-flight
operations (activeRequests, incremented when executeRequest starts and
decremented when it resolves) is at most maxConcurrent, because the
dispatch step of processQueue is guarded by the loop condition
activeRequests < maxConcurrent. -/
theorem c2_concurrency_cap (maxConcurrent : Nat) (s : ExecState)
    (h : ExecReachable maxConcurrent s) :
    s.activeRequests ≤ maxConcurrent := by
  induction h with
  | refl => exact Nat.zero_le _
  | tail hsteps hstep ih =>
    cases hstep with
    | enqueue q a => exact ih
    | dispatch q a hq hc => exact hc
    | retry q a => exact ih
    | finish q a ha =>
      simp only [ExecState.activeRequests] at *
      omega

/-- Witness for C2: after enqueueing two operations and dispatching both
under maxConcurrent = 2, the reachable state has two in-flight
operations, within the cap. -/
theorem c2_concurrency_cap_witness :
    (⟨0, 2⟩ : ExecState).activeRequests ≤ 2 :=
  c2_concurrency_cap 2 ⟨0, 2⟩
    (Relation.ReflTransGen.tail
      (Relation.ReflTransGen.tail
        (Relation.ReflTransGen.tail
          (Relation.ReflTransGen.tail Relation.ReflTransGen.refl
            (ExecStep.enqueue 0 0))
          (ExecStep.enqueue 1 0))
        (ExecStep.dispatch 2 0 (by decide) (by decide)))
      (ExecStep.dispatch 1 1 (by decide) (by decide)))

end RequestQueue

namespace BatchManager

theorem settleBatch_fst (promises : List (Nat × Nat)) (outcome : BatchOutcome) :
    (settleBatch promises outcome).map Prod.fst = promises.map Prod.snd := by
  cases outcome with
  | ok results =>
    simp only [settleBatch, List.map_map]
    apply List.map_congr_left
    intro p _
    simp only [Function.comp_apply]
    cases h : JSMap.find? results p.1 <;> simp [h]
  | err e =>
    simp only [settleBatch, List.map_map]
    apply List.map_congr_left
    intro p _
    simp only [Function.comp_apply]

/-- C6: at a flush, a member whose key has a value in the map returned
by the batch function is resolved with that value; a member whose key is
absent from the map is rejected with the missing-result error for its
key; and when the batch function itself throws, every member of the
group is rejected with that same error. -/
theorem c6_batch_demux (promises : List (Nat × Nat)) (key promiseId : Nat)
    (hmem : (key, promiseId) ∈ promises) :
    (∀ (results : List (Nat × Nat)) (v : Nat),
      JSMap.find? results key = some v →
      (promiseId, BatchSettlement.resolved v) ∈
        settleBatch promises (BatchOutcome.ok results))
  ∧ (∀ results : List (Nat × Nat),
      JSMap.find? results key = none →
      (promiseId, BatchSettlement.rejectedMissing key) ∈
        settleBatch promises (BatchOutcome.ok results))
  ∧ (∀ e : Nat,
      (promiseId, BatchSettlement.rejectedError e) ∈
        settleBatch promises (BatchOutcome.err e)) := by
  refine ⟨?_, ?_, ?_⟩
  · intro results v hfind
    have h := List.mem_map_of_mem
      (fun p : Nat × Nat =>
        match JSMap.find? results p.1 with
        | some v => (p.2, BatchSettlement.resolved v)
        | none => (p.2, BatchSettlement.rejectedMissing p.1)) hmem
    simpa [settleBatch, hfind] using h
  · intro results hfind
    have h := List.mem_map_of_mem
      (fun p : Nat × Nat =>
        match JSMap.find? results p.1 with
        | some v => (p.2, BatchSettlement.resolved v)
        | none => (p.2, BatchSettlement.rejectedMissing p.1)) hmem
    simpa [settleBatch, hfind] using h
  · intro e
    have h := List.mem_map_of_mem
      (fun p : Nat × Nat => (p.2, BatchSettlement.rejectedError e)) hmem
    simpa [settleBatch] using h

/-- Witness for C6: a two-member group whose batch function returns a
value for the first key only resolves the first member and rejects the
second with the missing-result error, and a throwing batch function
rejects both members. -/
theorem c6_batch_demux_witness :
    (100, BatchSettlement.resolved 7) ∈
      settleBatch [(1, 100), (2, 101)] (BatchOutcome.ok [(1, 7)])
  ∧ (101, BatchSettlement.rejectedMissing 2) ∈
      settleBatch [(1, 100), (2, 101)] (BatchOutcome.ok [(1, 7)])
  ∧ (101, BatchSettlement.rejectedError 9) ∈
      settleBatch [(1, 100), (2, 101)] (BatchOutcome.err 9) :=
  ⟨(c6_batch_demux [(1, 100), (2, 101)] 1 100 (by decide)).1 [(1, 7)] 7 (by decide),
   (c6_batch_demux [(1, 100), (2, 101)] 2 101 (by decide)).2.1 [(1, 7)] (by decide),
   (c6_batch_demux [(1, 100), (2, 101)] 2 101 (by decide)).2.2 9⟩

/-- C7 counterexample: the claim says every add() for the same key in an
open group creates its own continuation that is eventually settled. In
the source batch.promises is a Map keyed by the member key, so a second
add() with the same key replaces the stored continuation: after adding
continuation 100 and then continuation 200 under key 1, the promises map
holds only continuation 200, continuation 100 appears nowhere, and the
flush settles only continuation 200 — the first caller is never settled. -/
theorem c7_counterexample :
    (JSMap.find? (addToBatch (addToBatch [] 0 1 7 ⟨10, 2000, 2⟩ 100 0)
        0 1 7 ⟨10, 2000, 2⟩ 200 0) 0).map Batch.promises = some [(1, 200)]
  ∧ ((addOneToBatch (addOneToBatch ⟨[], [], 7, ⟨10, 2000, 2⟩⟩ 1 100 0)
        1 200 0).promises.map Prod.snd).contains 100 = false
  ∧ settleBatch (addOneToBatch (addOneToBatch ⟨[], [], 7, ⟨10, 2000, 2⟩⟩ 1 100 0)
        1 200 0).promises (BatchOutcome.ok [(1, 7)])
      = [(200, BatchSettlement.resolved 7)] := by
  decide

/-- C7 amended: an add() whose key is not in the open group stores a new
waiting continuation; an add() repeating a key of the open group
replaces the continuation stored for that key and leaves other keys
untouched, so at flush exactly the most recently stored continuation per
key is settled and earlier continuations for a repeated key are dropped,
never settled. -/
theorem c7_amended_repeated_key (batch : Batch) (key promiseId : Nat)
    (now : Int) :
    JSMap.find? (addOneToBatch batch key promiseId now).promises key
      = some promiseId
  ∧ (∀ k, k ≠ key →
      JSMap.find? (addOneToBatch batch key promiseId now).promises k
        = JSMap.find? batch.promises k)
  ∧ (∀ outcome : BatchOutcome,
      (settleBatch (addOneToBatch batch key promiseId now).promises
          outcome).map Prod.fst
        = (addOneToBatch batch key promiseId now).promises.map Prod.snd) := by
  refine ⟨?_, ?_, ?_⟩
  · exact JSMap.find?_mapSet_self batch.promises key promiseId
  · intro k hk
    exact JSMap.find?_mapSet_ne batch.promises key k promiseId hk
  · intro outcome
    exact settleBatch_fst _ outcome

/-- Witness for C7 amended: repeating key 1 replaces continuation 100 by
200, leaves the continuation of key 2 in place, and a flush with an
empty result map settles exactly the stored continuations. -/
theorem c7_amended_repeated_key_witness :
    JSMap.find? (addOneToBatch ⟨[], [(1, 100), (2, 101)], 7, ⟨10, 2000, 2⟩⟩
        1 200 0).promises 1 = some 200
  ∧ JSMap.find? (addOneToBatch ⟨[], [(1, 100), (2, 101)], 7, ⟨10, 2000, 2⟩⟩
        1 200 0).promises 2 = JSMap.find? [(1, 100), (2, 101)] 2
  ∧ (settleBatch (addOneToBatch ⟨[], [(1, 100), (2, 101)], 7, ⟨10, 2000, 2⟩⟩
        1 200 0).promises (BatchOutcome.err 3)).map Prod.fst
      = (addOneToBatch ⟨[], [(1, 100), (2, 101)], 7, ⟨10, 2000, 2⟩⟩
        1 200 0).promises.map Prod.snd :=
  ⟨(c7_amended_repeated_key ⟨[], [(1, 100), (2, 101)], 7, ⟨10, 2000, 2⟩⟩ 1 200 0).1,
   (c7_amended_repeated_key ⟨[], [(1, 100), (2, 101)], 7, ⟨10, 2000, 2⟩⟩ 1 200 0).2.1
     2 (by decide),
   (c7_amended_repeated_key ⟨[], [(1, 100), (2, 101)], 7, ⟨10, 2000, 2⟩⟩ 1 200 0).2.2
     (BatchOutcome.err 3)⟩

/-- C10: the batches entry for a kind is created by the first add() for
that kind with that call's batch function and options; an add() for an
existing kind only inserts the member, keeping the stored batch function
and options and ignoring the arguments of the later call; and a flush
clears the group's members and continuations while keeping the kind's
entry and its stored batch function and options. -/
theorem c10_kind_entry (batches : List (Nat × Batch))
    (batchType key batchFunctionId promiseId : Nat) (opts : BatchOpts)
    (now : Int) :
    (JSMap.find? batches batchType = none →
      JSMap.find? (addToBatch batches batchType key batchFunctionId opts
          promiseId now) batchType
        = some ⟨[(key, ⟨key, now⟩)], [(key, promiseId)], batchFunctionId, opts⟩)
  ∧ (∀ batch : Batch, JSMap.find? batches batchType = some batch →
      JSMap.find? (addToBatch batches batchType key batchFunctionId opts
          promiseId now) batchType
        = some (addOneToBatch batch key promiseId now)
      ∧ JSMap.find? (flushClear batches batchType) batchType
        = some { batch with items := [], promises := [] }) := by
  constructor
  · intro hnone
    unfold addToBatch
    rw [hnone]
    simp only [Option.isSome_none, Bool.false_eq_true, if_false,
      JSMap.find?_mapSet_self]
    rfl
  · intro batch hsome
    refine ⟨?_, ?_⟩
    · unfold addToBatch
      rw [hsome]
      simp only [Option.isSome_some, if_true]
      rw [hsome, JSMap.find?_mapSet_self]
    · unfold flushClear
      rw [hsome, JSMap.find?_mapSet_self]

/-- Witness for C10: the first add() for kind 0 installs batch function
77 with its options; a second add() for kind 0 passing batch function 88
and different options leaves function 77 and the original options in
place; flushing keeps the entry with function 77. -/
theorem c10_kind_entry_witness :
    JSMap.find? (addToBatch [] 0 1 77 ⟨8, 1500, 2⟩ 100 5) 0
      = some ⟨[(1, ⟨1, 5⟩)], [(1, 100)], 77, ⟨8, 1500, 2⟩⟩
  ∧ JSMap.find? (addToBatch [(0, ⟨[(1, ⟨1, 5⟩)], [(1, 100)], 77, ⟨8, 1500, 2⟩⟩)]
        0 2 88 ⟨9, 9, 9⟩ 101 6) 0
      = some (addOneToBatch ⟨[(1, ⟨1, 5⟩)], [(1, 100)], 77, ⟨8, 1500, 2⟩⟩ 2 101 6)
  ∧ JSMap.find? (flushClear [(0, ⟨[(1, ⟨1, 5⟩)], [(1, 100)], 77, ⟨8, 1500, 2⟩⟩)] 0) 0
      = some ⟨[], [], 77, ⟨8, 1500, 2⟩⟩ :=
  ⟨(c10_kind_entry [] 0 1 77 100 ⟨8, 1500, 2⟩ 5).1 (by decide),
   ((c10_kind_entry [(0, ⟨[(1, ⟨1, 5⟩)], [(1, 100)], 77, ⟨8, 1500, 2⟩⟩)]
       0 2 88 101 ⟨9, 9, 9⟩ 6).2
     ⟨[(1, ⟨1, 5⟩)], [(1, 100)], 77, ⟨8, 1500, 2⟩⟩ (by decide)).1,
   ((c10_kind_entry [(0, ⟨[(1, ⟨1, 5⟩)], [(1, 100)], 77, ⟨8, 1500, 2⟩⟩)]
       0 2 88 101 ⟨9, 9, 9⟩ 6).2
     ⟨[(1, ⟨1, 5⟩)], [(1, 100)], 77, ⟨8, 1500, 2⟩⟩ (by decide)).2⟩

end BatchManager

namespace CacheManager

/-- C8: after set stores a value with expiry now + ttl, a get at any
time not later than the expiry returns the stored value, and a get at
any time past the expiry reports absent and deletes the stale entry on
that read, so the value is never returned once the clock passed the
expiry. -/
theorem c8_ttl_expiry (cache : List (Nat × CacheEntry)) (key data : Nat)
    (ttl : Int) (limit : Nat) (now now' : Int) :
    (now' ≤ now + ttl →
      (cacheGet (cacheSet cache key data ttl limit now) key now').1
        = some data)
  ∧ (now + ttl < now' →
      (cacheGet (cacheSet cache key data ttl limit now) key now').1 = none
    ∧ (cacheGet (cacheSet cache key data ttl limit now) key now').2
        = JSMap.mapDelete (cacheSet cache key data ttl limit now) key) := by
  have hfind : JSMap.find? (cacheSet cache key data ttl limit now) key
      = some ⟨data, now, now + ttl, now⟩ := by
    unfold cacheSet
    exact JSMap.find?_mapSet_self _ key _
  constructor
  · intro hlive
    simp [cacheGet, hfind, not_lt.mpr hlive]
  · intro hstale
    refine ⟨?_, ?_⟩ <;> simp [cacheGet, hfind, hstale]

/-- Witness for C8, the spec scenario: set with ttl 100 at time 0, get
at time 100 returns the value; get at time 150 reports absent and purges
the entry. -/
theorem c8_ttl_expiry_witness :
    (cacheGet (cacheSet [] 1 42 100 5 0) 1 100).1 = some 42
  ∧ (cacheGet (cacheSet [] 1 42 100 5 0) 1 150).1 = none :=
  ⟨(c8_ttl_expiry [] 1 42 100 5 0 100).1 (by decide),
   ((c8_ttl_expiry [] 1 42 100 5 0 150).2 (by decide)).1⟩

theorem oldestKeyAux_spec (rest : List (Nat × CacheEntry)) :
    ∀ (k0 : Nat) (t0 : Int),
    ∃ k, oldestKeyAux rest (some (k0, t0)) = some k ∧
      ((k = k0 ∧ ∀ p ∈ rest, t0 ≤ p.2.lastAccessed) ∨
       (∃ e, (k, e) ∈ rest ∧ e.lastAccessed < t0 ∧
         ∀ p ∈ rest, e.lastAccessed ≤ p.2.lastAccessed)) := by
  induction rest with
  | nil =>
    intro k0 t0
    exact ⟨k0, rfl, Or.inl ⟨rfl, by simp⟩⟩
  | cons q rest ih =>
    intro k0 t0
    obtain ⟨k1, e1⟩ := q
    by_cases h : e1.lastAccessed < t0
    · obtain ⟨k, hk, hcase⟩ := ih k1 e1.lastAccessed
      refine ⟨k, ?_, ?_⟩
      · simpa [oldestKeyAux, h] using hk
      · rcases hcase with ⟨hkk, hall⟩ | ⟨e, hmem, hlt, hall⟩
        · refine Or.inr ⟨e1, ?_, h, ?_⟩
          · rw [hkk]; exact List.mem_cons_self _ _
          · intro p hp
            rcases List.mem_cons.mp hp with hp | hp
            · rw [hp]
            · exact hall p hp
        · refine Or.inr ⟨e, List.mem_cons_of_mem _ hmem, lt_trans hlt h, ?_⟩
          intro p hp
          rcases List.mem_cons.mp hp with hp | hp
          · rw [hp]; exact le_of_lt hlt
          · exact hall p hp
    · obtain ⟨k, hk, hcase⟩ := ih k0 t0
      refine ⟨k, ?_, ?_⟩
      · simpa [oldestKeyAux, h] using hk
      · rcases hcase with ⟨hkk, hall⟩ | ⟨e, hmem, hlt, hall⟩
        · refine Or.inl ⟨hkk, ?_⟩
          intro p hp
          rcases List.mem_cons.mp hp with hp | hp
          · rw [hp]; exact le_of_not_lt h
          · exact hall p hp
        · refine Or.inr ⟨e, List.mem_cons_of_mem _ hmem, hlt, ?_⟩
          intro p hp
          rcases List.mem_cons.mp hp with hp | hp
          · rw [hp]; exact le_trans (le_of_lt hlt) (le_of_not_lt h)
          · exact hall p hp

theorem oldestKey_spec (cache : List (Nat × CacheEntry))
    (hne : cache ≠ []) :
    ∃ k e, oldestKey cache = some k ∧ (k, e) ∈ cache ∧
      ∀ p ∈ cache, e.lastAccessed ≤ p.2.lastAccessed := by
  match cache, hne with
  | (k1, e1) :: rest, _ =>
    obtain ⟨k, hk, hcase⟩ := oldestKeyAux_spec rest k1 e1.lastAccessed
    have hkey : oldestKey ((k1, e1) :: rest) = some k := by
      simpa [oldestKey, oldestKeyAux] using hk
    rcases hcase with ⟨hkk, hall⟩ | ⟨e, hmem, hlt, hall⟩
    · refine ⟨k, e1, hkey, ?_, ?_⟩
      · rw [hkk]; exact List.mem_cons_self _ _
      · intro p hp
        rcases List.mem_cons.mp hp with hp | hp
        · rw [hp]
        · exact hall p hp
    · refine ⟨k, e, hkey, List.mem_cons_of_mem _ hmem, ?_⟩
      intro p hp
      rcases List.mem_cons.mp hp with hp | hp
      · rw [hp]; exact le_of_lt hlt
      · exact hall p hp

theorem cacheSet_length_le (cache : List (Nat × CacheEntry))
    (key data : Nat) (ttl : Int) (limit : Nat) (now : Int)
    (hpos : 1 ≤ limit) (hlen : cache.length ≤ limit) :
    (cacheSet cache key data ttl limit now).length ≤ limit := by
  have h1 := JSMap.length_mapSet_le (evictOldest cache) key
    (⟨data, now, now + ttl, now⟩ : CacheEntry)
  have h2 := JSMap.length_mapSet_le cache key
    (⟨data, now, now + ttl, now⟩ : CacheEntry)
  unfold cacheSet
  dsimp only
  by_cases hcap : limit ≤ cache.length
  · rw [if_pos hcap]
    have hne : cache ≠ [] := by
      intro hnil
      rw [hnil] at hcap
      simp at hcap
      omega
    obtain ⟨k, e, hk, hmem, _⟩ := oldestKey_spec cache hne
    have hev : (evictOldest cache).length < cache.length := by
      unfold evictOldest
      rw [hk]
      exact JSMap.length_mapDelete_lt cache k e hmem
    omega
  · rw [if_neg hcap]
    omega

theorem applySets_length_le (limit : Nat) (hpos : 1 ≤ limit)
    (ops : List (Nat × Nat × Int × Int)) :
    (applySets ops limit).length ≤ limit := by
  suffices h : ∀ (init : List (Nat × CacheEntry)), init.length ≤ limit →
      (ops.foldl (fun cache op =>
        cacheSet cache op.1 op.2.1 op.2.2.1 limit op.2.2.2) init).length ≤ limit by
    exact h [] (by simp)
  induction ops with
  | nil => intro init hinit; simpa using hinit
  | cons op rest ih =>
    intro init hinit
    exact ih _ (cacheSet_length_le init op.1 op.2.1 op.2.2.1 limit op.2.2.2
      hpos hinit)

/-- C9: for a namespace with capacity limit at least 1, any sequence of
set operations leaves at most limit entries, and a set performed when
the namespace is at capacity first evicts an entry whose last-access
time is minimal among all entries and then inserts the new entry. -/
theorem c9_lru_eviction (limit : Nat) (hpos : 1 ≤ limit) :
    (∀ ops : List (Nat × Nat × Int × Int),
      (applySets ops limit).length ≤ limit)
  ∧ (∀ (cache : List (Nat × CacheEntry)) (key data : Nat) (ttl : Int)
      (now : Int), limit ≤ cache.length →
      ∃ kOld eOld, (kOld, eOld) ∈ cache ∧ oldestKey cache = some kOld ∧
        (∀ p ∈ cache, eOld.lastAccessed ≤ p.2.lastAccessed) ∧
        cacheSet cache key data ttl limit now
          = JSMap.mapSet (JSMap.mapDelete cache kOld) key
              ⟨data, now, now + ttl, now⟩) := by
  constructor
  · exact applySets_length_le limit hpos
  · intro cache key data ttl now hcap
    have hne : cache ≠ [] := by
      intro hnil
      rw [hnil] at hcap
      simp at hcap
      omega
    obtain ⟨k, e, hk, hmem, hmin⟩ := oldestKey_spec cache hne
    refine ⟨k, e, hmem, hk, hmin, ?_⟩
    unfold cacheSet evictOldest
    rw [if_pos hcap, hk]

/-- Witness for C9: with capacity 2, three inserts keep the namespace at
two entries, and a set at capacity evicts the entry of key 2, whose
last-access time 3 is the oldest. -/
theorem c9_lru_eviction_witness :
    (applySets [(1, 10, 100, 0), (2, 20, 100, 1), (3, 30, 100, 2)] 2).length ≤ 2
  ∧ ∃ kOld eOld,
      (kOld, eOld) ∈ [(1, (⟨10, 0, 100, 5⟩ : CacheEntry)), (2, ⟨20, 0, 100, 3⟩)]
    ∧ oldestKey [(1, ⟨10, 0, 100, 5⟩), (2, ⟨20, 0, 100, 3⟩)] = some kOld
    ∧ (∀ p ∈ [(1, (⟨10, 0, 100, 5⟩ : CacheEntry)), (2, ⟨20, 0, 100, 3⟩)],
        eOld.lastAccessed ≤ p.2.lastAccessed)
    ∧ cacheSet [(1, ⟨10, 0, 100, 5⟩), (2, ⟨20, 0, 100, 3⟩)] 9 99 100 2 7
        = JSMap.mapSet
            (JSMap.mapDelete [(1, ⟨10, 0, 100, 5⟩), (2, ⟨20, 0, 100, 3⟩)] kOld)
            9 ⟨99, 7, 107, 7⟩ :=
  ⟨(c9_lru_eviction 2 (by decide)).1 [(1, 10, 100, 0), (2, 20, 100, 1), (3, 30, 100, 2)],
   (c9_lru_eviction 2 (by decide)).2 [(1, ⟨10, 0, 100, 5⟩), (2, ⟨20, 0, 100, 3⟩)]
     9 99 100 7 (by decide)⟩

end CacheManager

namespace RequestQueue

theorem runAttempts_success (retryAttempts : Nat)
    (outcomes : Nat → AttemptOutcome) (k v : Nat)
    (h : outcomes k = .success v) :
    runAttempts retryAttempts outcomes k = .resolved v := by
  rw [runAttempts, h]

theorem runAttempts_retry (retryAttempts : Nat)
    (outcomes : Nat → AttemptOutcome) (k : Nat) (e : String)
    (h : outcomes k = .failure e) (h2 : k + 1 < retryAttempts)
    (h3 : (isRateLimitError e || isRetriableError e) = true) :
    runAttempts retryAttempts outcomes k
      = runAttempts retryAttempts outcomes (k + 1) := by
  rw [runAttempts, h]
  dsimp only
  rw [dif_pos ⟨h2, h3⟩]

theorem runAttempts_reject (retryAttempts : Nat)
    (outcomes : Nat → AttemptOutcome) (k : Nat) (e : String)
    (h : outcomes k = .failure e)
    (h2 : ¬(k + 1 < retryAttempts ∧
      (isRateLimitError e || isRetriableError e) = true)) :
    runAttempts retryAttempts outcomes k = .rejected e := by
  rw [runAttempts, h]
  dsimp only
  rw [dif_neg h2]

theorem runAttempts_skip (retryAttempts : Nat)
    (outcomes : Nat → AttemptOutcome) (e : Nat → String) :
    ∀ n k, k + n < retryAttempts →
    (∀ i, k ≤ i → i < k + n → outcomes i = .failure (e i) ∧
      (isRateLimitError (e i) || isRetriableError (e i)) = true) →
    runAttempts retryAttempts outcomes k
      = runAttempts retryAttempts outcomes (k + n) := by
  intro n
  induction n with
  | zero => intro k _ _; rfl
  | succ n ih =>
    intro k hlt hfail
    have h0 := hfail k le_rfl (by omega)
    rw [runAttempts_retry retryAttempts outcomes k (e k) h0.1 (by omega) h0.2]
    have heq : k + (n + 1) = (k + 1) + n := by omega
    rw [heq]
    exact ih (k + 1) (by omega) (fun i hi1 hi2 => hfail i (by omega) (by omega))

/-- C3: with maxAttempts = retryAttempts, an operation whose attempts
fail with rate-limit or retriable errors exactly maxAttempts - 1 times
and then succeed resolves with the value of the final attempt; one whose
attempts all fail with such errors maxAttempts times rejects with the
last error seen; and one whose first attempt fails with a terminal error
(neither rate-limit nor retriable) rejects immediately with that error. -/
theorem c3_retry_semantics (maxAttempts : Nat)
    (outcomes : Nat → AttemptOutcome) (e : Nat → String)
    (hpos : 1 ≤ maxAttempts) :
    (∀ v : Nat,
      (∀ i, i < maxAttempts - 1 → outcomes i = .failure (e i) ∧
        (isRateLimitError (e i) || isRetriableError (e i)) = true) →
      outcomes (maxAttempts - 1) = .success v →
      submitWithRetries maxAttempts outcomes = .resolved v)
  ∧ ((∀ i, i < maxAttempts → outcomes i = .failure (e i) ∧
        (isRateLimitError (e i) || isRetriableError (e i)) = true) →
      submitWithRetries maxAttempts outcomes
        = .rejected (e (maxAttempts - 1)))
  ∧ (∀ e0 : String, outcomes 0 = .failure e0 →
      isRateLimitError e0 = false → isRetriableError e0 = false →
      submitWithRetries maxAttempts outcomes = .rejected e0) := by
  refine ⟨?_, ?_, ?_⟩
  · intro v hfail hsucc
    unfold submitWithRetries
    have hskip := runAttempts_skip maxAttempts outcomes e (maxAttempts - 1) 0
      (by omega) (fun i hi1 hi2 => hfail i (by omega))
    rw [Nat.zero_add] at hskip
    rw [hskip]
    exact runAttempts_success maxAttempts outcomes (maxAttempts - 1) v hsucc
  · intro hfail
    unfold submitWithRetries
    have hskip := runAttempts_skip maxAttempts outcomes e (maxAttempts - 1) 0
      (by omega) (fun i hi1 hi2 => hfail i (by omega))
    rw [Nat.zero_add] at hskip
    rw [hskip]
    refine runAttempts_reject maxAttempts outcomes (maxAttempts - 1)
      (e (maxAttempts - 1)) (hfail (maxAttempts - 1) (by omega)).1 ?_
    rintro ⟨hlt, _⟩
    omega
  · intro e0 h0 hrl hrt
    unfold submitWithRetries
    refine runAttempts_reject maxAttempts outcomes 0 e0 h0 ?_
    rintro ⟨_, hb⟩
    rw [hrl, hrt] at hb
    simp at hb

/-- Witness for C3: with maxAttempts = 3, two rate-limit failures then a
success resolve with 7; three retriable timeout failures reject with the
timeout error; a terminal error on the first attempt rejects with it. -/
theorem c3_retry_semantics_witness :
    submitWithRetries 3
      (fun i => if i < 2 then AttemptOutcome.failure "429"
        else AttemptOutcome.success 7) = RequestResult.resolved 7
  ∧ submitWithRetries 3 (fun _ => AttemptOutcome.failure "timeout")
      = RequestResult.rejected "timeout"
  ∧ submitWithRetries 3 (fun _ => AttemptOutcome.failure "bad input")
      = RequestResult.rejected "bad input" :=
  ⟨(c3_retry_semantics 3
      (fun i => if i < 2 then AttemptOutcome.failure "429"
        else AttemptOutcome.success 7)
      (fun _ => "429") (by decide)).1 7 (by decide) (by decide),
   (c3_retry_semantics 3 (fun _ => AttemptOutcome.failure "timeout")
      (fun _ => "timeout") (by decide)).2.1 (by decide),
   (c3_retry_semantics 3 (fun _ => AttemptOutcome.failure "bad input")
      (fun _ => "bad input") (by decide)).2.2 "bad input" rfl
     (by decide) (by decide)⟩

end RequestQueue

namespace RequestQueue

theorem enqueueInsert_characterization (request : QRequest)
    (queue : List QRequest) :
    enqueueInsert request queue
      = queue.takeWhile (fun x => !decide (x.priority < request.priority)) ++
        request ::
          queue.dropWhile (fun x => !decide (x.priority < request.priority)) := by
  induction queue with
  | nil => rfl
  | cons q rest ih =>
    by_cases h : q.priority < request.priority
    · simp [enqueueInsert, List.takeWhile_cons, List.dropWhile_cons, h]
    · simp [enqueueInsert, List.takeWhile_cons, List.dropWhile_cons, h, ih]

theorem enqueueInsert_priorityOrdered (request : QRequest)
    (queue : List QRequest) (hsorted : PriorityOrdered queue) :
    PriorityOrdered (enqueueInsert request queue) := by
  induction queue with
  | nil => exact trivial
  | cons q rest ih =>
    by_cases h : q.priority < request.priority
    · simp only [enqueueInsert, if_pos h]
      exact ⟨le_of_lt h, hsorted⟩
    · simp only [enqueueInsert, if_neg h]
      cases rest with
      | nil => exact ⟨le_of_not_lt h, trivial⟩
      | cons b rest' =>
        obtain ⟨hqb, hsorted'⟩ := hsorted
        by_cases hb : b.priority < request.priority
        · simp only [enqueueInsert, if_pos hb]
          exact ⟨le_of_not_lt h, le_of_lt hb, hsorted'⟩
        · have hins := ih hsorted'
          simp only [enqueueInsert, if_neg hb] at hins ⊢
          exact ⟨hqb, hins⟩

/-- C4 counterexample: the claim extends priority-then-FIFO servicing to
operations re-queued for retry. In handleRequestError a retried request
is placed at the front of the queue with unshift regardless of priority:
re-queueing the retried priority-0 request in front of a waiting
priority-5 request yields a queue whose head, the request serviced next,
is the priority-0 one, so the higher-priority operation is not serviced
first. -/
theorem c4_counterexample :
    (requeueRetryFront ⟨0, 1⟩ [⟨5, 0⟩]).head? = some ⟨0, 1⟩
  ∧ ¬ PriorityOrdered (requeueRetryFront ⟨0, 1⟩ [⟨5, 0⟩]) := by
  decide

/-- C4 amended: operations entering through enqueue are inserted before
the first queued request of strictly smaller priority — keeping the
queue ordered by non-increasing priority and placing a new request after
all requests of equal priority, so ties are serviced FIFO — but an
operation re-queued for retry is placed at the front of the queue
regardless of priority and is serviced before every waiting operation,
including higher-priority ones. -/
theorem c4_amended_queue_order (request : QRequest) (queue : List QRequest)
    (hsorted : PriorityOrdered queue) :
    PriorityOrdered (enqueueInsert request queue)
  ∧ enqueueInsert request queue
      = queue.takeWhile (fun x => !decide (x.priority < request.priority)) ++
        request ::
          queue.dropWhile (fun x => !decide (x.priority < request.priority))
  ∧ requeueRetryFront request queue = request :: queue :=
  ⟨enqueueInsert_priorityOrdered request queue hsorted,
   enqueueInsert_characterization request queue, rfl⟩

/-- Witness for C4 amended: inserting a priority-3 request into the
ordered queue with priorities 5, 3, 1 keeps the order and places it
after the existing priority-3 request, while a retried request goes to
the front. -/
theorem c4_amended_queue_order_witness :
    PriorityOrdered (enqueueInsert ⟨3, 9⟩ [⟨5, 0⟩, ⟨3, 1⟩, ⟨1, 2⟩])
  ∧ enqueueInsert ⟨3, 9⟩ [⟨5, 0⟩, ⟨3, 1⟩, ⟨1, 2⟩]
      = [⟨5, 0⟩, ⟨3, 1⟩].takeWhile (fun x => !decide (x.priority < (3 : Int)))
          ++ ⟨3, 9⟩ :: [⟨1, 2⟩] ++ []
  ∧ requeueRetryFront ⟨3, 9⟩ [⟨5, 0⟩, ⟨3, 1⟩, ⟨1, 2⟩]
      = ⟨3, 9⟩ :: [⟨5, 0⟩, ⟨3, 1⟩, ⟨1, 2⟩] := by
  have h := c4_amended_queue_order ⟨3, 9⟩ [⟨5, 0⟩, ⟨3, 1⟩, ⟨1, 2⟩] (by decide)
  refine ⟨h.1, ?_, h.2.2⟩
  rw [h.2.1]
  decide

end RequestQueue

namespace RPCManager

/-- C5 counterexample: the claim says current() always returns the
highest-priority endpoint not in cooldown. Starting from three endpoints
with priority ranks 1, 2, 3 (rank 1 most preferred, list order), five
failures of the primary at time 0 rotate the index to the rank-2
endpoint. At time 100000 the primary's 60000 ms cooldown has elapsed, so
the primary (rank 1) is not in cooldown, yet current() still returns the
rank-2 endpoint, because getCurrentEndpoint only reads the stored index
and never re-selects by priority. -/
theorem c5_counterexample :
    (runEvents (initialState [⟨0, 1⟩, ⟨1, 2⟩, ⟨2, 3⟩])
        (List.replicate 5 (RPCEvent.failCurrent 0))).endpoints
      = [⟨0, 1⟩, ⟨1, 2⟩, ⟨2, 3⟩]
  ∧ isEndpointInCooldown
      (runEvents (initialState [⟨0, 1⟩, ⟨1, 2⟩, ⟨2, 3⟩])
        (List.replicate 5 (RPCEvent.failCurrent 0))) 0 100000 = false
  ∧ getCurrentEndpoint
      (runEvents (initialState [⟨0, 1⟩, ⟨1, 2⟩, ⟨2, 3⟩])
        (List.replicate 5 (RPCEvent.failCurrent 0))) = some ⟨1, 2⟩ := by
  decide

theorem switchLoop_all_cooldown (s : RPCState) (now : Int)
    (hn : 0 < s.endpoints.length)
    (hall : ∀ e ∈ s.endpoints, isEndpointInCooldown s e.name now = true) :
    ∀ fuel i, switchLoop s now fuel i
      = (if fuel = 0 then i else (i + fuel) % s.endpoints.length, false) := by
  intro fuel
  induction fuel with
  | zero => intro i; rfl
  | succ fuel ih =>
    intro i
    have hlt : (i + 1) % s.endpoints.length < s.endpoints.length :=
      Nat.mod_lt _ hn
    have hsome : s.endpoints[(i + 1) % s.endpoints.length]?
        = some (s.endpoints.get ⟨(i + 1) % s.endpoints.length, hlt⟩) :=
      List.getElem?_eq_getElem hlt
    have hmem : s.endpoints.get ⟨(i + 1) % s.endpoints.length, hlt⟩
        ∈ s.endpoints :=
      List.getElem_mem hlt
    rw [switchLoop]
    simp only [hsome]
    rw [if_pos (hall _ hmem), ih ((i + 1) % s.endpoints.length)]
    by_cases hf : fuel = 0
    · subst hf
      simp
    · rw [if_neg hf, if_neg (Nat.succ_ne_zero fuel)]
      rw [Nat.mod_add_mod]
      congr 2
      omega

theorem switchLoop_success (s : RPCState) (now : Int)
    (hn : 0 < s.endpoints.length) :
    ∀ fuel i idx, switchLoop s now fuel i = (idx, true) →
    ∃ e, s.endpoints[idx]? = some e
      ∧ isEndpointInCooldown s e.name now = false := by
  intro fuel
  induction fuel with
  | zero =>
    intro i idx h
    simp [switchLoop] at h
  | succ fuel ih =>
    intro i idx h
    have hlt : (i + 1) % s.endpoints.length < s.endpoints.length :=
      Nat.mod_lt _ hn
    have hsome : s.endpoints[(i + 1) % s.endpoints.length]?
        = some (s.endpoints.get ⟨(i + 1) % s.endpoints.length, hlt⟩) :=
      List.getElem?_eq_getElem hlt
    rw [switchLoop] at h
    simp only [hsome] at h
    by_cases hcd : isEndpointInCooldown s
        (s.endpoints.get ⟨(i + 1) % s.endpoints.length, hlt⟩).name now = true
    · rw [if_pos hcd] at h
      exact ih _ _ h
    · rw [if_neg hcd] at h
      have hidx : idx = (i + 1) % s.endpoints.length :=
        (Prod.mk.injEq _ _ _ _ ▸ h).1.symm
      subst hidx
      exact ⟨_, hsome, Bool.not_eq_true _ ▸ hcd⟩

/-- C5 amended: current() returns the endpoint stored at the rotation
index and is not recomputed from priorities. The index only moves in
switchToNextEndpoint, which advances cyclically to the first endpoint
not in cooldown: when every endpoint is in cooldown the loop wraps
around once, leaves the index where it was, and reports no rotation, so
current() still returns that same endpoint instead of blocking or
throwing; when a rotation is reported, the endpoint at the new index is
one that is not in cooldown. -/
theorem c5_amended_rotation (s : RPCState) (now : Int)
    (hn : 0 < s.endpoints.length)
    (hidx : s.currentEndpointIndex < s.endpoints.length) :
    ((∀ e ∈ s.endpoints, isEndpointInCooldown s e.name now = true) →
      switchToNextEndpoint s now = (s, false))
  ∧ ((switchToNextEndpoint s now).2 = true →
      ∃ e, s.endpoints[(switchToNextEndpoint s now).1.currentEndpointIndex]?
          = some e
        ∧ isEndpointInCooldown s e.name now = false) := by
  constructor
  · intro hall
    unfold switchToNextEndpoint
    rw [switchLoop_all_cooldown s now hn hall s.endpoints.length
      s.currentEndpointIndex]
    have hne : s.endpoints.length ≠ 0 := by omega
    rw [if_neg hne]
    dsimp only
    rw [Nat.add_mod_right, Nat.mod_eq_of_lt hidx]
  · intro htrue
    rcases hsw : switchLoop s now s.endpoints.length s.currentEndpointIndex
      with ⟨a, b⟩
    unfold switchToNextEndpoint at htrue ⊢
    rw [hsw] at htrue ⊢
    dsimp only at htrue ⊢
    subst htrue
    exact switchLoop_success s now hn _ _ _ hsw

/-- Witness for C5 amended: with two endpoints both in cooldown at time
1 (five failures each, last failure at time 0), switchToNextEndpoint
wraps around, keeps index 0, and reports no rotation, so current() keeps
returning the same endpoint. -/
theorem c5_amended_rotation_witness :
    switchToNextEndpoint
      ⟨0, [⟨0, 1⟩, ⟨1, 2⟩], [(0, 5), (1, 5)], [(0, 0), (1, 0)]⟩ 1
      = (⟨0, [⟨0, 1⟩, ⟨1, 2⟩], [(0, 5), (1, 5)], [(0, 0), (1, 0)]⟩, false) :=
  (c5_amended_rotation
      ⟨0, [⟨0, 1⟩, ⟨1, 2⟩], [(0, 5), (1, 5)], [(0, 0), (1, 0)]⟩ 1
      (by decide) (by decide)).1 (by decide)

end RPCManager

namespace RequestQueue

theorem length_filter_mono {α : Type} (l : List α) (p q : α → Bool)
    (h : ∀ x ∈ l, p x = true → q x = true) :
    (l.filter p).length ≤ (l.filter q).length := by
  induction l with
  | nil => simp
  | cons a rest ih =>
    have ih' := ih (fun x hx => h x (List.mem_cons_of_mem _ hx))
    by_cases hp : p a = true
    · rw [List.filter_cons_of_pos hp,
        List.filter_cons_of_pos (h a (List.mem_cons_self a rest) hp)]
      simpa using ih'
    · rw [List.filter_cons_of_neg (by simpa using hp)]
      by_cases hq : q a = true
      · rw [List.filter_cons_of_pos hq]
        simp only [List.length_cons]
        omega
      · rw [List.filter_cons_of_neg (by simpa using hq)]
        exact ih'

theorem admissible_countWindow_le (R : Nat) (hist : List Int)
    (h : Admissible R hist) : ∀ w, countWindow hist w ≤ R := by
  induction h with
  | nil => intro w; simp [countWindow]
  | snoc hist t hprev hcount ih =>
    intro w
    unfold countWindow at ih ⊢
    rw [List.filter_append, List.length_append]
    by_cases hin : w < t ∧ t ≤ w + 1000
    · have hone : (List.filter (fun x => decide (w < x ∧ x ≤ w + 1000))
          [t]).length = 1 := by
        simp [hin]
      have hmono : (hist.filter (fun x =>
            decide (w < x ∧ x ≤ w + 1000))).length
          ≤ (hist.filter (fun x => decide (t - 1000 < x))).length := by
        apply length_filter_mono
        intro x hx hpx
        simp only [decide_eq_true_eq] at hpx ⊢
        omega
      rw [hone]
      omega
    · have hzero : (List.filter (fun x => decide (w < x ∧ x ≤ w + 1000))
          [t]).length = 0 := by
        simp [hin]
      rw [hzero]
      have := ih w
      omega

theorem rateReachable_storedFaithful (R : Nat) (s : RateState)
    (h : RateReachable R s) : StoredFaithful s := by
  induction h with
  | init t0 =>
    exact ⟨by simp, [], by simp, by simp⟩
  | start s t hmono hadm hprev ih =>
    obtain ⟨hle, removed, hperm, hrem⟩ := ih
    unfold StoredFaithful recordRequestTime
    dsimp only
    refine ⟨?_, removed, ?_, ?_⟩
    · intro x hx
      rcases List.mem_append.mp hx with hx | hx
      · exact le_trans (hle x hx) hmono
      · simp only [List.mem_singleton] at hx
        omega
    · have p1 : (s.history ++ [t]).Perm ((s.requestTimes ++ removed) ++ [t]) :=
        hperm.append_right [t]
      have p2 : ((s.requestTimes ++ removed) ++ [t]).Perm
          ((s.requestTimes ++ [t]) ++ removed) := by
        rw [List.append_assoc, List.append_assoc]
        exact List.Perm.append_left s.requestTimes List.perm_append_comm
      exact p1.trans p2
    · intro x hx
      have := hrem x hx
      omega
  | cleanup s t hmono hprev ih =>
    obtain ⟨hle, removed, hperm, hrem⟩ := ih
    unfold StoredFaithful cleanupOldTimes
    dsimp only
    refine ⟨fun x hx => le_trans (hle x hx) hmono,
      s.requestTimes.filter (fun x => !decide (t - 5000 < x)) ++ removed,
      ?_, ?_⟩
    · have p2 : (s.requestTimes ++ removed).Perm
          ((s.requestTimes.filter (fun x => decide (t - 5000 < x)) ++
            s.requestTimes.filter (fun x => !decide (t - 5000 < x))) ++
            removed) :=
        ((List.filter_append_perm _ s.requestTimes).symm).append_right removed
      rw [← List.append_assoc]
      exact hperm.trans p2
    · intro x hx
      rcases List.mem_append.mp hx with hx | hx
      · have := (List.mem_filter.mp hx).2
        simp only [Bool.not_eq_true', decide_eq_false_iff_not, Int.not_lt]
          at this
        omega
      · have := hrem x hx
        omega
  | tick s t hmono hprev ih =>
    obtain ⟨hle, removed, hperm, hrem⟩ := ih
    unfold StoredFaithful
    dsimp only
    refine ⟨fun x hx => le_trans (hle x hx) hmono, removed, hperm, ?_⟩
    intro x hx
    have := hrem x hx
    omega

theorem rateReachable_admissible (R : Nat) (s : RateState)
    (h : RateReachable R s) : Admissible R s.history := by
  induction h with
  | init t0 => exact Admissible.nil
  | start s t hmono hadm hprev ih =>
    refine Admissible.snoc s.history t ih ?_
    obtain ⟨hle, removed, hperm, hrem⟩ :=
      rateReachable_storedFaithful R s hprev
    unfold canMakeRequest at hadm
    simp only [decide_eq_true_eq] at hadm
    have hpf := hperm.filter (fun x => decide (t - 1000 < x))
    rw [List.filter_append] at hpf
    have hremnil : removed.filter (fun x => decide (t - 1000 < x)) = [] := by
      rw [List.filter_eq_nil_iff]
      intro a ha
      have := hrem a ha
      simp only [decide_eq_true_eq, Int.not_lt]
      omega
    rw [hremnil, List.append_nil] at hpf
    rw [hpf.length_eq]
    exact hadm
  | cleanup s t hmono hprev ih => exact ih
  | tick s t hmono hprev ih => exact ih

/-- C1: along every event-loop execution of the rate limiter with
maxRequestsPerSecond = R — where an operation starts only when
canMakeRequest counts fewer than R recorded starts in the trailing
second, and the periodic cleanup may prune timestamps older than five
seconds — no sliding one-second window of the full start history ever
contains more than R operation starts. -/
theorem c1_sliding_window_rate (R : Nat) (s : RateState)
    (h : RateReachable R s) (w : Int) : countWindow s.history w ≤ R :=
  admissible_countWindow_le R s.history (rateReachable_admissible R s h) w

/-- Witness for C1: with R = 2, starting operations at times 0 and 400
is admissible, and the window (-500, 500] then holds two starts, within
the bound. -/
theorem c1_sliding_window_rate_witness :
    countWindow (([] ++ [(0 : Int)]) ++ [(400 : Int)]) (-500) ≤ 2 :=
  c1_sliding_window_rate 2
    ⟨recordRequestTime (recordRequestTime [] 0) 400,
      ([] ++ [(0 : Int)]) ++ [(400 : Int)], 400⟩
    (RateReachable.start ⟨recordRequestTime [] 0, [] ++ [(0 : Int)], 0⟩ 400
      (by decide) (by decide)
      (RateReachable.start ⟨[], [], 0⟩ 0 (by decide) (by decide)
        (RateReachable.init 0)))
    (-500)

end RequestQueue
